import Mathlib

/-!
Verification of the ts-statemachine repository.

The repository contains two engines:
* `FiniteStateMachine` (src/machine.ts): a typed machine whose states and
  events are tagged records, with per-(state, event) handler lists, where a
  handler is either an `execute` handler (side effect, may call `send`) or a
  `transition` handler (computes the next state), each with an optional
  guard `condition`.
* `StateMachine` (the older string-keyed engine): states and events are
  strings, transitions carry an optional nullary `condition` and a `target`,
  with an `onEnter` callback per state receiving a cancellation token.

Both are embedded below.  Machine state is passed explicitly; the event
emitters (`onDidReceiveEvent`, `onDidTransition`, `onDidFinish`,
`stateChangeEmitter`, `doneEmitter`) are modelled as ghost logs appended
exactly where the source fires them; JavaScript exceptions are modelled with
`Except`, the error value carrying the machine as mutated at throw time.
Handler functions are arbitrary Lean functions; a handler that can throw
returns `Except Nat _` (the `Nat` being the opaque user error).  Because a
condition or execute handler may close over the machine and call `send`
re-entrantly, conditions also return the list of events they pass to `send`
while evaluating, and the engine applies the real `send` semantics to that
list, exactly as the closure would.  Recursion between `send`, the drain
loop, `runHandlers` and `transitionTo` is untangled with a fuel parameter;
running out of fuel is a distinguished error.
-/

namespace FiniteStateMachine

/-- An event: a tagged record with a discriminant `eventName` and payload. -/
structure Event where
  eventName : String
  payload : Nat := 0
deriving DecidableEq

/-- A state value: a tagged record with a discriminant `stateName` and payload. -/
structure State where
  stateName : String
  payload : Nat := 0
deriving DecidableEq

/-- src/types.ts `StateKind`. -/
inductive StateKind where
  | Intermediate
  | Final
deriving DecidableEq

/-- A guard condition: from the current state and the event it produces either
a thrown user error, or a boolean together with the list of events the
condition function passed to `machine.send` while it was evaluating. -/
abbrev Condition := State → Event → Except Nat (Bool × List Event)

/-- src/types.ts `EventHandler`: either an `ExecuteEventHandler` (an `execute`
function receiving a `send` callback; the returned list is the events it
passes to `send`, in order) or a `TransitionEventHandler` (a `transition`
function computing the next state).  Either may carry an optional guard. -/
inductive EventHandler where
  | executeH (condition : Option Condition) (execute : State → Event → Except Nat (List Event))
  | transitionH (condition : Option Condition) (transition : State → Event → Except Nat State)

/-- One entry of the `Transitions` catalogue: the definition of a state. -/
structure StateDef where
  kind : StateKind
  onEnter : List EventHandler := []
  onExit : List EventHandler := []
  onEvent : List (String × List EventHandler) := []

/-- The `_state` field of `FiniteStateMachine`: 'initial' | 'started' | 'finished'. -/
inductive Lifecycle where
  | initial
  | started
  | finished
deriving DecidableEq

/-- The mutable fields of a `FiniteStateMachine` instance, plus ghost logs for
the three emitters.  `finishLog` counts firings of `_onDidFinish`; the source
never fires it, so no operation below increments it. -/
structure Machine where
  definition : List (String × StateDef)
  currentState : State
  bufferedEvents : List Event := []
  handlingEvent : Bool := false
  lifecycle : Lifecycle := .initial
  receiveLog : List Event := []
  transitionLog : List (Event × State × State) := []
  finishLog : Nat := 0

/-- Errors that can escape the engine: a user error thrown by a handler, the
two engine invariant violations, the `start` lifecycle error, and fuel
exhaustion (an artifact of the embedding). -/
inductive FsmError where
  | handlerError (code : Nat)
  | invariantMissingState (stateName : String)
  | invariantUnexpectedHandler
  | startedTwice
  | outOfFuel
deriving DecidableEq

/-- Result of an engine operation: either the machine after normal return, or
the thrown error together with the machine as mutated at throw time. -/
abbrev Res := Except (FsmError × Machine) Machine

/-- The machine carried by a result, thrown or not. -/
def Res.machine : Res → Machine
  | .ok m => m
  | .error (_, m) => m

/-- Exception propagation: run the continuation on a normal result, let a
thrown error propagate unchanged. -/
def Res.andThen (r : Res) (k : Machine → Res) : Res :=
  match r with
  | .error em => .error em
  | .ok m2 => k m2

/-- Association-list lookup of a state definition, `this.definition[name]`. -/
def lookupDef (defs : List (String × StateDef)) (name : String) : Option StateDef :=
  match defs with
  | [] => none
  | (n, d) :: rest => if n = name then some d else lookupDef rest name

/-- `currentStateDefinition.onEvent[eventType] || []`. -/
def lookupHandlers (onEvent : List (String × List EventHandler)) (name : String) :
    List EventHandler :=
  match onEvent with
  | [] => []
  | (n, hs) :: rest => if n = name then hs else lookupHandlers rest name

/-- The handler's optional guard. -/
def conditionOf : EventHandler → Option Condition
  | .executeH c _ => c
  | .transitionH c _ => c

/-- `typeof eventHandler.condition === 'function' ? eventHandler.condition(state, event) : true`.
A missing condition selects the handler and sends nothing. -/
def evalCondition (h : EventHandler) (s : State) (e : Event) : Except Nat (Bool × List Event) :=
  match conditionOf h with
  | none => .ok (true, [])
  | some c => c s e

/-- The operations of `FiniteStateMachine` that recurse into one another. -/
inductive Call where
  | runHandlers (hs : List EventHandler) (e : Event)
  | transitionTo (e : Event) (nextState : State)
  | handleEvent (e : Event)
  | drain
  | send (e : Event)
  | start
  | sendMany (es : List Event)

/-- The engine, transcribed from src/machine.ts.  `interp fuel m c` runs
operation `c` on machine `m`.  All recursive calls decrement the fuel, so the
definition is structural and reduces in the kernel.  Branch by branch:

* `runHandlers`: the `for (const eventHandler of eventHandlers)` loop: for
  each handler evaluate the guard (applying `send` to the events the guard
  itself submitted), skip on false; a selected execute handler runs, its
  `send`-callback events are submitted, and the loop continues; a selected
  transition handler computes the next state, calls `transitionTo` only when
  the `stateName` differs, and always `break`s.
* `transitionTo`: run the previous definition's `onExit`, swap
  `_currentState`, fire `_onDidTransition`, run the next definition's
  `onEnter`, and mark the lifecycle finished when the next kind is `Final`.
* `handleEvent`: invariant check for a missing current-state definition,
  fire `_onDidReceiveEvent`, then run the handlers for the event name.
* `drain`: `while (this._bufferedEvents.length) { shift; handleEvent }`.
* `send`: return unchanged unless started, push the event, return if already
  handling, otherwise set the handling flag, drain, and clear the flag.
* `start`: fail unless in the initial lifecycle, mark started, run the
  initial state's `onEnter` with the internal `@@Start` event.
* `sendMany`: apply `send` to each event of a list, in order (the engine's
  `send` callback handed to execute handlers and guard closures). -/
def interp : Nat → Machine → Call → Res
  | 0, m, _ => .error (.outOfFuel, m)
  | fuel + 1, m, c =>
    match c with
    | .runHandlers hs e =>
      match hs with
      | [] => .ok m
      | h :: rest =>
        match evalCondition h m.currentState e with
        | .error code => .error (.handlerError code, m)
        | .ok (valid, condSends) =>
          Res.andThen
            (if condSends.isEmpty then .ok m else interp fuel m (.sendMany condSends))
            fun m1 =>
            if valid then
              match h with
              | .executeH _ ex =>
                match ex m1.currentState e with
                | .error code => .error (.handlerError code, m1)
                | .ok emitted =>
                  Res.andThen
                    (if emitted.isEmpty then .ok m1 else interp fuel m1 (.sendMany emitted))
                    fun m2 => interp fuel m2 (.runHandlers rest e)
              | .transitionH _ tr =>
                match tr m1.currentState e with
                | .error code => .error (.handlerError code, m1)
                | .ok nextState =>
                  if nextState.stateName = m1.currentState.stateName then .ok m1
                  else interp fuel m1 (.transitionTo e nextState)
            else interp fuel m1 (.runHandlers rest e)
    | .transitionTo e nextState =>
      match lookupDef m.definition m.currentState.stateName with
      | none => .error (.invariantMissingState m.currentState.stateName, m)
      | some prevDef =>
        let fromState := m.currentState
        Res.andThen (interp fuel m (.runHandlers prevDef.onExit e)) fun m1 =>
          let m2 : Machine :=
            { m1 with
              currentState := nextState
              transitionLog := m1.transitionLog ++ [(e, nextState, fromState)] }
          match lookupDef m2.definition nextState.stateName with
          | none => .error (.invariantMissingState nextState.stateName, m2)
          | some nextDef =>
            Res.andThen (interp fuel m2 (.runHandlers nextDef.onEnter e)) fun m3 =>
              .ok (if nextDef.kind = .Final then { m3 with lifecycle := .finished } else m3)
    | .handleEvent e =>
      match lookupDef m.definition m.currentState.stateName with
      | none => .error (.invariantMissingState m.currentState.stateName, m)
      | some d =>
        let handlers := lookupHandlers d.onEvent e.eventName
        let m1 : Machine := { m with receiveLog := m.receiveLog ++ [e] }
        interp fuel m1 (.runHandlers handlers e)
    | .drain =>
      match m.bufferedEvents with
      | [] => .ok m
      | e :: rest =>
        Res.andThen (interp fuel { m with bufferedEvents := rest } (.handleEvent e))
          fun m1 => interp fuel m1 .drain
    | .send e =>
      if m.lifecycle ≠ .started then .ok m
      else
        let m1 : Machine := { m with bufferedEvents := m.bufferedEvents ++ [e] }
        if m1.handlingEvent then .ok m1
        else
          Res.andThen (interp fuel { m1 with handlingEvent := true } .drain)
            fun m2 => .ok { m2 with handlingEvent := false }
    | .start =>
      if m.lifecycle ≠ .initial then .error (.startedTwice, m)
      else
        let m1 : Machine := { m with lifecycle := .started }
        match lookupDef m1.definition m1.currentState.stateName with
        | none => .error (.invariantMissingState m1.currentState.stateName, m1)
        | some d => interp fuel m1 (.runHandlers d.onEnter { eventName := "@@Start" })
    | .sendMany es =>
      match es with
      | [] => .ok m
      | e :: rest =>
        Res.andThen (interp fuel m (.send e)) fun m1 => interp fuel m1 (.sendMany rest)

/-- `FiniteStateMachine.runHandlers`. -/
def runHandlers (fuel : Nat) (m : Machine) (hs : List EventHandler) (e : Event) : Res :=
  interp fuel m (.runHandlers hs e)

/-- `FiniteStateMachine.transitionTo`. -/
def transitionTo (fuel : Nat) (m : Machine) (e : Event) (nextState : State) : Res :=
  interp fuel m (.transitionTo e nextState)

/-- `FiniteStateMachine.handleEvent`. -/
def handleEvent (fuel : Nat) (m : Machine) (e : Event) : Res :=
  interp fuel m (.handleEvent e)

/-- The `while` loop of `FiniteStateMachine.send`. -/
def drain (fuel : Nat) (m : Machine) : Res :=
  interp fuel m .drain

/-- `FiniteStateMachine.send`. -/
def send (fuel : Nat) (m : Machine) (e : Event) : Res :=
  interp fuel m (.send e)

/-- `FiniteStateMachine.start`. -/
def start (fuel : Nat) (m : Machine) : Res :=
  interp fuel m .start

/-- The `FiniteStateMachine` constructor: records the definition and copies
the initial state; it performs no validation. -/
def mkMachine (definition : List (String × StateDef)) (initialState : State) : Machine :=
  { definition := definition, currentState := initialState }

end FiniteStateMachine

namespace StateMachine

/-!
Embedding of the older string-keyed `StateMachine` class.  States and events
are strings.  A `Transition` carries an optional nullary guard and a target
state name.  The guard is a JavaScript closure: it may call `machine.send`
while evaluating, so it is modelled as the pair of the events it submits and
the boolean it would return.  While a guard runs the engine sets
`executingCondition`, and `send` throws when that flag is up, so a guard that
submits any event makes its evaluation throw the reentrancy error (the
`finally` resets the flag, leaving the machine otherwise untouched, and the
error propagates).  The `onEnter` callback of a state is modelled by the
list of events it passes to `send`; those calls happen while
`enqueueEvents` is set, so they only append to the queue.  Emitter firings,
cancellation-token cancel/dispose calls, the `internalState` assignment and
the run of an `onEnter` callback are recorded in a ghost `log` in execution
order; cancellation-token sources are numbered by a counter.
-/

/-- A guard: the events its closure passes to `machine.send` while it runs,
and the boolean it returns if it runs to completion. -/
structure SMCondition where
  sendsDuring : List String
  result : Bool
deriving DecidableEq

/-- A transition entry of `StateMachineTransitions[state].on[event]`. -/
structure Transition where
  condition : Option SMCondition := none
  target : String
deriving DecidableEq

/-- One state's entry in `StateMachineTransitions`: optional per-event
transition lists, an optional `onEnter` callback (modelled by the events it
sends), and whether `type === StateKind.Final`. -/
structure StateNode where
  «on» : Option (List (String × List Transition)) := none
  onEnter : Option (List String) := none
  final : Bool := false
deriving DecidableEq

/-- Observable actions, in execution order: cancelling and disposing a
pending cancellation-token source, the `internalState` assignment, a
`stateChangeEmitter.fire`, the invocation of an `onEnter` callback with a
given token, and a `doneEmitter.fire`. -/
inductive SMAction where
  | cancelToken (id : Nat)
  | stateSwap (state : String)
  | fireStateChange (event state : String)
  | runEnter (tokenId : Nat)
  | fireDone
deriving DecidableEq

/-- The mutable fields of a `StateMachine` instance plus the ghost log. -/
structure SMachine where
  transitions : List (String × StateNode)
  initialState : String
  internalState : Option String := none
  pendingCancellations : List Nat := []
  tokenCounter : Nat := 0
  eventQueue : List String := []
  enqueueEvents : Bool := false
  executingCondition : Bool := false
  log : List SMAction := []
deriving DecidableEq

/-- The errors `StateMachine` throws: the two construction `TypeError`s, the
lifecycle errors of `send`/`start`/`flushEventQueue`, the reentrancy error of
`send`, a missing-state crash, and fuel exhaustion. -/
inductive SMErr where
  | noFinal
  | finalHasTransitions
  | lifecycle
  | reentrancy
  | missingState (state : String)
  | outOfFuel
deriving DecidableEq

/-- Result of a `StateMachine` operation. -/
abbrev SMRes := Except (SMErr × SMachine) SMachine

/-- The machine carried by a result, thrown or not. -/
def SMRes.machine : SMRes → SMachine
  | .ok m => m
  | .error (_, m) => m

/-- Exception propagation for `StateMachine` operations. -/
def SMRes.andThen (r : SMRes) (k : SMachine → SMRes) : SMRes :=
  match r with
  | .error em => .error em
  | .ok m2 => k m2

/-- `this.transitions[stateName]`. -/
def lookupNode (nodes : List (String × StateNode)) (name : String) : Option StateNode :=
  match nodes with
  | [] => none
  | (n, d) :: rest => if n = name then some d else lookupNode rest name

/-- `transitionsForState.on[event]`. -/
def lookupOn (onMap : List (String × List Transition)) (name : String) :
    Option (List Transition) :=
  match onMap with
  | [] => none
  | (n, ts) :: rest => if n = name then some ts else lookupOn rest name

/-- Evaluation of `!transition.condition || transition.condition()` under the
`executingCondition` flag.  A missing guard allows the transition.  A guard
whose closure calls `send` makes that inner `send` throw (lifecycle error
when not started, reentrancy error otherwise, mirroring the check order in
`send`); the `finally` resets the flag, so the propagated error carries the
machine unchanged.  A guard that sends nothing returns its boolean. -/
def evalCondition (m : SMachine) (c : Option SMCondition) : Except (SMErr × SMachine) Bool :=
  match c with
  | none => .ok true
  | some c =>
    if c.sendsDuring.isEmpty then .ok c.result
    else .error ((if m.internalState = none then SMErr.lifecycle else SMErr.reentrancy), m)

/-- The deferred callbacks `enterMachineState` collects before running them. -/
inductive Callback where
  | fireChange (event state : String)
  | runEnter (tokenId : Nat) (sends : List String)
  | fireDone
deriving DecidableEq

/-- The `while (callbacks.length) { shift; callback(); }` loop.  It runs with
`enqueueEvents` set, so the `send` calls an `onEnter` callback makes only
append to the event queue. -/
def runCallbacks (m : SMachine) (cbs : List Callback) : SMachine :=
  match cbs with
  | [] => m
  | .fireChange ev s :: rest =>
      runCallbacks { m with log := m.log ++ [.fireStateChange ev s] } rest
  | .runEnter tok sends :: rest =>
      runCallbacks
        { m with log := m.log ++ [.runEnter tok], eventQueue := m.eventQueue ++ sends } rest
  | .fireDone :: rest =>
      runCallbacks { m with log := m.log ++ [.fireDone] } rest

/-- The recursive operations of `StateMachine`. -/
inductive SMCall where
  | enterMachineState (state : String) (event : String)
  | flushEventQueue
  | scan (ts : List Transition) (event : String)
  | send (event : String)
  | start

/-- The engine, transcribed from the `StateMachine` class.  Branch by branch:

* `enterMachineState`: when the target differs from `internalState`, cancel
  and dispose every pending cancellation-token source in FIFO order (the
  `shift` loop clears the collection), assign `internalState`, and defer a
  state-change fire; reading `.onEnter` of a missing target definition then
  crashes; otherwise register a fresh token source and defer the `onEnter`
  run, defer a done fire when the target is final, run the deferred
  callbacks with `enqueueEvents` set, and flush the event queue.
* `flushEventQueue`: throw when not started; shift events until the queue is
  empty; a falsy (empty-string) event returns early; missing state node,
  missing `.on` table or missing per-event list skip to the next event;
  otherwise scan the eligible transitions.
* `scan`: the `for (const transition of eligibleTransitions)` loop:
  evaluate the guard; on the first allowed transition enter the target state
  and `break`.
* `send`: throw the lifecycle error when not started, the reentrancy error
  while a guard is evaluating; push the event; flush right away only when
  the pushed event is alone in the queue and `enqueueEvents` is off.
* `start`: throw when already started, else enter the initial state with the
  internal `Initialize` event. -/
def sminterp : Nat → SMachine → SMCall → SMRes
  | 0, m, _ => .error (.outOfFuel, m)
  | fuel + 1, m, c =>
    match c with
    | .enterMachineState state event =>
      let changed := m.internalState ≠ some state
      let m1 : SMachine :=
        if changed then
          { m with
            pendingCancellations := []
            internalState := some state
            log := m.log ++ m.pendingCancellations.map SMAction.cancelToken
              ++ [SMAction.stateSwap state] }
        else m
      match lookupNode m1.transitions state with
      | none => .error (.missingState state, m1)
      | some node =>
        let cbs1 : List Callback := if changed then [.fireChange event state] else []
        let cbs3 : List Callback := if node.final then [.fireDone] else []
        match node.onEnter with
        | none =>
          let m3 := runCallbacks { m1 with enqueueEvents := true } (cbs1 ++ cbs3)
          sminterp fuel { m3 with enqueueEvents := false } .flushEventQueue
        | some sends =>
          let m2 : SMachine :=
            { m1 with
              pendingCancellations := m1.pendingCancellations ++ [m1.tokenCounter]
              tokenCounter := m1.tokenCounter + 1 }
          let m3 := runCallbacks { m2 with enqueueEvents := true }
            (cbs1 ++ [.runEnter m1.tokenCounter sends] ++ cbs3)
          sminterp fuel { m3 with enqueueEvents := false } .flushEventQueue
    | .flushEventQueue =>
      match m.internalState with
      | none => .error (.lifecycle, m)
      | some st =>
        match m.eventQueue with
        | [] => .ok m
        | ev :: rest =>
          let m1 : SMachine := { m with eventQueue := rest }
          if ev = "" then .ok m1
          else
            match lookupNode m1.transitions st with
            | none => sminterp fuel m1 .flushEventQueue
            | some node =>
              match node.«on» with
              | none => sminterp fuel m1 .flushEventQueue
              | some onMap =>
                match lookupOn onMap ev with
                | none => sminterp fuel m1 .flushEventQueue
                | some ts =>
                  SMRes.andThen (sminterp fuel m1 (.scan ts ev))
                    fun m2 => sminterp fuel m2 .flushEventQueue
    | .scan ts event =>
      match ts with
      | [] => .ok m
      | t :: rest =>
        match evalCondition m t.condition with
        | .error em => .error em
        | .ok true => sminterp fuel m (.enterMachineState t.target event)
        | .ok false => sminterp fuel m (.scan rest event)
    | .send event =>
      if m.internalState = none then .error (.lifecycle, m)
      else if m.executingCondition then .error (.reentrancy, m)
      else
        let m1 : SMachine := { m with eventQueue := m.eventQueue ++ [event] }
        if m1.eventQueue.length = 1 ∧ m1.enqueueEvents = false then
          sminterp fuel m1 .flushEventQueue
        else .ok m1
    | .start =>
      if m.internalState ≠ none then .error (.lifecycle, m)
      else sminterp fuel m (.enterMachineState m.initialState "Initialize")

/-- `StateMachine.enterMachineState`. -/
def enterMachineState (fuel : Nat) (m : SMachine) (state event : String) : SMRes :=
  sminterp fuel m (.enterMachineState state event)

/-- `StateMachine.flushEventQueue`. -/
def flushEventQueue (fuel : Nat) (m : SMachine) : SMRes :=
  sminterp fuel m .flushEventQueue

/-- The eligible-transition loop inside `flushEventQueue`. -/
def scanTransitions (fuel : Nat) (m : SMachine) (ts : List Transition) (event : String) : SMRes :=
  sminterp fuel m (.scan ts event)

/-- `StateMachine.send`. -/
def send (fuel : Nat) (m : SMachine) (event : String) : SMRes :=
  sminterp fuel m (.send event)

/-- `StateMachine.start`. -/
def start (fuel : Nat) (m : SMachine) : SMRes :=
  sminterp fuel m .start

/-- The freshly constructed instance, before/without validation. -/
def mkSM (initialState : String) (transitions : List (String × StateNode)) : SMachine :=
  { transitions := transitions, initialState := initialState }

/-- The constructor's validation loop: walk the declared states in order; at
the first state whose `type` is `Final`, throw if it declares any `.on`
transitions, otherwise record that a final state exists and `break`.
Returns whether a final state was found. -/
def checkFinals (nodes : List (String × StateNode)) : Except SMErr Bool :=
  match nodes with
  | [] => .ok false
  | (_, node) :: rest =>
    if node.final then
      if node.«on».isSome then .error .finalHasTransitions else .ok true
    else checkFinals rest

/-- The `StateMachine` constructor: run the validation loop, throw
`noFinal` when no state is marked final, otherwise create the instance. -/
def construct (initialState : String) (transitions : List (String × StateNode)) :
    Except SMErr SMachine :=
  match checkFinals transitions with
  | .error ε => .error ε
  | .ok true => .ok (mkSM initialState transitions)
  | .ok false => .error .noFinal

/-- The first state node in declaration order whose kind is `Final`. -/
def firstFinal (nodes : List (String × StateNode)) : Option StateNode :=
  match nodes with
  | [] => none
  | (_, node) :: rest => if node.final then some node else firstFinal rest

end StateMachine

namespace FiniteStateMachine

/-- Concrete data used to instantiate the C1 theorem. -/
def c1e : Event := { eventName := "E" }

/-- A guarded handler whose guard is pure and returns false. -/
def c1hSkip : EventHandler :=
  .transitionH (some fun _ _ => .ok (false, [])) (fun s _ => .ok s)

/-- An unguarded execute handler with a pure side effect. -/
def c1hExec : EventHandler := .executeH none (fun _ _ => .ok [])

/-- An unguarded transition handler targeting state b. -/
def c1hTr : EventHandler := .transitionH none (fun _ _ => .ok { stateName := "b" })

/-- A started machine at state a whose catalogue maps event E to the
transition handler above. -/
def c1m : Machine :=
  { mkMachine
      [("a", { kind := .Intermediate, onEvent := [("E", [c1hTr])] }),
       ("b", { kind := .Intermediate })]
      { stateName := "a" } with
    lifecycle := .started }

end FiniteStateMachine

namespace FiniteStateMachine

/-- Events used by the C2 machine. -/
def c2X : Event := { eventName := "X" }

/-- Second event submitted while draining. -/
def c2Y : Event := { eventName := "Y" }

/-- Catalogue for C2: in s0, X runs an execute handler that sends G, Y
transitions to s1, G transitions to s2; in s1, G transitions to f (final). -/
def c2def : List (String × StateDef) :=
  [("s0", { kind := .Intermediate,
            onEvent :=
              [("X", [.executeH none (fun _ _ => .ok [{ eventName := "G" }])]),
               ("Y", [.transitionH none (fun _ _ => .ok { stateName := "s1" })]),
               ("G", [.transitionH none (fun _ _ => .ok { stateName := "s2" })])] }),
   ("s1", { kind := .Intermediate,
            onEvent := [("G", [.transitionH none (fun _ _ => .ok { stateName := "f" })])] }),
   ("s2", { kind := .Intermediate }),
   ("f", { kind := .Final })]

/-- The configuration reached when events X and Y were submitted by handlers
while a drain was active: both sit in the buffer, the handling flag is up,
the machine is started and still at s0. -/
def c2mid : Machine :=
  { mkMachine c2def { stateName := "s0" } with
    lifecycle := .started, bufferedEvents := [c2X, c2Y], handlingEvent := true }

/-- The same machine quiescent (after the prior drain completed), used for
the one-at-a-time submission of the same events. -/
def c2quiet : Machine :=
  { c2mid with bufferedEvents := [], handlingEvent := false }

end FiniteStateMachine

namespace FiniteStateMachine

/-- The event driving the C3 scenario. -/
def c3e : Event := { eventName := "E" }

/-- Catalogue for C3: event E moves the intermediate state a to the final
state f. -/
def c3def : List (String × StateDef) :=
  [("a", { kind := .Intermediate,
           onEvent := [("E", [.transitionH none (fun _ _ => .ok { stateName := "f" })])] }),
   ("f", { kind := .Final })]

/-- A started C3 machine at state a. -/
def c3m0 : Machine := { mkMachine c3def { stateName := "a" } with lifecycle := .started }

/-- The C3 machine after sending E: it has entered the final state. -/
def c3m1 : Machine := (send 20 c3m0 c3e).machine

/-- A freshly constructed (never started) machine for C4. -/
def c4m0 : Machine := mkMachine [("a", { kind := .Intermediate })] { stateName := "a" }

/-- The event sent to the unstarted C4 machine. -/
def c4e : Event := { eventName := "E" }

/-- The event whose guard re-entrantly sends in the C5 scenario. -/
def c5e : Event := { eventName := "E" }

/-- Catalogue for C5: in state a the guard of the E handler calls `send F`
while evaluating and then allows a transition to b; in b, F moves to c. -/
def c5def : List (String × StateDef) :=
  [("a", { kind := .Intermediate,
           onEvent :=
             [("E", [.transitionH (some fun _ _ => .ok (true, [{ eventName := "F" }]))
                 (fun _ _ => .ok { stateName := "b" })])] }),
   ("b", { kind := .Intermediate,
           onEvent := [("F", [.transitionH none (fun _ _ => .ok { stateName := "c" })])] }),
   ("c", { kind := .Intermediate })]

/-- A started C5 machine at state a. -/
def c5m0 : Machine := { mkMachine c5def { stateName := "a" } with lifecycle := .started }

/-- Relation between a machine and a later image of it: the transition log
only grew, and when it did not grow (no `_onDidTransition` fired, hence no
state swap was committed), the current state and the lifecycle are
untouched. -/
def CommitRel (a b : Machine) : Prop :=
  ∃ ext, b.transitionLog = a.transitionLog ++ ext ∧
    (ext = [] → b.currentState = a.currentState ∧ b.lifecycle = a.lifecycle)

/-- The event whose transition handler throws in the C8 scenario. -/
def c8e : Event := { eventName := "E" }

/-- Catalogue for C8: the transition handler for E throws user error 7. -/
def c8def : List (String × StateDef) :=
  [("a", { kind := .Intermediate,
           onEvent := [("E", [.transitionH none (fun _ _ => .error 7)])] })]

/-- A started C8 machine at state a. -/
def c8m0 : Machine := { mkMachine c8def { stateName := "a" } with lifecycle := .started }

/-- The machine carried by the error that escapes the C8 send. -/
def c8m1 : Machine := (send 9 c8m0 c8e).machine

/-- The event whose execute handler throws in the C9 scenario. -/
def c9e : Event := { eventName := "E" }

/-- Catalogue for C9: the execute handler for E throws user error 3. -/
def c9def : List (String × StateDef) :=
  [("a", { kind := .Intermediate,
           onEvent := [("E", [.executeH none (fun _ _ => .error 3)])] })]

/-- A started C9 machine at state a. -/
def c9m0 : Machine := { mkMachine c9def { stateName := "a" } with lifecycle := .started }

/-- The machine left behind when the C9 send throws. -/
def c9m1 : Machine := (send 9 c9m0 c9e).machine

/-- Catalogue for the C10 counterexample: the final state f1 carries an entry
transition handler into the final state f2. -/
def c10def : List (String × StateDef) :=
  [("f1", { kind := .Final,
            onEnter := [.transitionH none (fun _ _ => .ok { stateName := "f2" })] }),
   ("f2", { kind := .Final })]

/-- A machine whose initial state is the final state f1, not yet started. -/
def c10m0 : Machine := mkMachine c10def { stateName := "f1" }

/-- A machine whose initial state is a final state with no entry handlers. -/
def c10w0 : Machine := mkMachine [("g", { kind := .Final })] { stateName := "g" }

end FiniteStateMachine

namespace StateMachine

/-- The observable action a deferred callback performs when run. -/
def cbAction : Callback → SMAction
  | .fireChange ev s => .fireStateChange ev s
  | .runEnter tok _ => .runEnter tok
  | .fireDone => .fireDone

/-- A constructed but never started `StateMachine` for C4. -/
def c4sm : SMachine := mkSM "A" [("A", { final := true })]

/-- A transition whose guard closure calls `machine.send("Stop")` while
evaluating, for C5. -/
def c5smT : Transition :=
  { condition := some { sendsDuring := ["Stop"], result := true }, target := "Stopped" }

/-- A started `StateMachine` in state Started whose Stop handler carries the
re-entrant guard above. -/
def c5sm : SMachine :=
  { mkSM "Started"
      [("Started", { «on» := some [("Stop", [c5smT])] }),
       ("Stopped", { final := true })] with
    internalState := some "Started" }

/-- Transition table for C6: state A is final and clean, state B is also
final but declares an `.on` table — only A is ever examined by the
constructor's loop. -/
def c6ts : List (String × StateNode) :=
  [("A", { final := true }),
   ("B", { final := true, «on» := some [("E", [{ target := "A" }])] })]

/-- The target node entered in the C7 scenario: final, with an `onEnter`
callback. -/
def c7node : StateNode := { final := true, onEnter := some [] }

/-- Relation between a `StateMachine` and a later image of it: the action
log only grew, the token counter never decreased, and every pending
cancellation-token source is either one that was already registered or a
fresh one numbered at or above the old counter. -/
def SMExtends (a b : SMachine) : Prop :=
  (∃ ext, b.log = a.log ++ ext)
  ∧ a.tokenCounter ≤ b.tokenCounter
  ∧ ∀ t ∈ b.pendingCancellations, t ∈ a.pendingCancellations ∨ a.tokenCounter ≤ t

/-- A started `StateMachine` in state A with two pending cancellation-token
sources, about to enter B. -/
def c7sm : SMachine :=
  { transitions := [("A", { «on» := some [("go", [{ target := "B" }])] }), ("B", c7node)]
    initialState := "A"
    internalState := some "A"
    pendingCancellations := [0, 1]
    tokenCounter := 2 }

end StateMachine

open FiniteStateMachine in
/-- C1: candidates for the current (state, event) pair are scanned in
declaration order; a handler whose guard returns false is skipped; a
selected execute handler runs its side effect (submitting the events it
passed to `send`) and the scan continues with the rest of the list; a
selected transition handler ends the scan no matter what it computes —
the tail of the handler list never influences the result. -/
theorem c1_handler_selection :
    (∀ fuel m e d, lookupDef m.definition m.currentState.stateName = some d →
      handleEvent (fuel + 1) m e =
        runHandlers fuel { m with receiveLog := m.receiveLog ++ [e] }
          (lookupHandlers d.onEvent e.eventName) e)
  ∧ (∀ fuel m hs h e, evalCondition h m.currentState e = .ok (false, []) →
      runHandlers (fuel + 1) m (h :: hs) e = runHandlers fuel m hs e)
  ∧ (∀ fuel m m2 hs e c ex emitted,
      evalCondition (.executeH c ex) m.currentState e = .ok (true, []) →
      ex m.currentState e = .ok emitted →
      interp fuel m (.sendMany emitted) = .ok m2 →
      runHandlers (fuel + 1) m (.executeH c ex :: hs) e = runHandlers fuel m2 hs e)
  ∧ (∀ fuel m hs e c tr, evalCondition (.transitionH c tr) m.currentState e = .ok (true, []) →
      runHandlers (fuel + 1) m (.transitionH c tr :: hs) e =
        runHandlers (fuel + 1) m [.transitionH c tr] e) := by
  refine ⟨?_, ?_, ?_, ?_⟩
  · intro fuel m e d hd
    simp only [handleEvent, runHandlers, interp, hd]
  · intro fuel m hs h e hcond
    simp [runHandlers, interp, hcond, Res.andThen]
  · intro fuel m m2 hs e c ex emitted hcond hex hsend
    simp only [runHandlers, interp, hcond, hex, List.isEmpty_nil, if_true, Res.andThen]
    cases emitted with
    | nil =>
      cases fuel with
      | zero =>
        simp only [interp] at hsend
        exact Except.noConfusion hsend
      | succ n =>
        simp only [interp] at hsend
        cases hsend
        simp [Res.andThen]
    | cons a as =>
      simp [hsend, Res.andThen]
  · intro fuel m hs e c tr hcond
    simp [runHandlers, interp, hcond, Res.andThen]

open FiniteStateMachine in
/-- Witness for C1 at concrete inputs: the dispatch equation for `c1m` and
event E, skipping `c1hSkip` whose guard is false, continuing past `c1hExec`,
and the tail-independence of the scan after `c1hTr`. -/
theorem c1_witness :
    (lookupDef c1m.definition c1m.currentState.stateName =
        some { kind := .Intermediate, onEvent := [("E", [c1hTr])] } ∧
      handleEvent 4 c1m c1e =
        runHandlers 3 { c1m with receiveLog := c1m.receiveLog ++ [c1e] }
          (lookupHandlers [("E", [c1hTr])] c1e.eventName) c1e)
  ∧ (evalCondition c1hSkip c1m.currentState c1e = .ok (false, []) ∧
      runHandlers 4 c1m [c1hSkip, c1hTr] c1e = runHandlers 3 c1m [c1hTr] c1e)
  ∧ (evalCondition c1hExec c1m.currentState c1e = .ok (true, []) ∧
      runHandlers 4 c1m [c1hExec, c1hTr] c1e = runHandlers 3 c1m [c1hTr] c1e)
  ∧ runHandlers 4 c1m [c1hTr, c1hExec] c1e = runHandlers 4 c1m [c1hTr] c1e := by
  refine ⟨⟨rfl, ?_⟩, ⟨rfl, ?_⟩, ⟨rfl, ?_⟩, ?_⟩
  · exact c1_handler_selection.1 3 c1m c1e _ rfl
  · exact c1_handler_selection.2.1 3 c1m [c1hTr] c1hSkip c1e rfl
  · exact c1_handler_selection.2.2.1 3 c1m c1m [c1hTr] c1e none _ [] rfl rfl rfl
  · exact c1_handler_selection.2.2.2 3 c1m [c1hExec] c1e none _ rfl


open FiniteStateMachine in
/-- C2 counterexample: continuing the active drain over the buffered events X
and Y ends in state f, while submitting the same two events one at a time
after the prior drain completes ends in state s2 — the FIFO-confluence part
of the claim is false for this catalogue, because the G sent by X's execute
handler is processed after Y inside a single drain but between X and Y when
the events are submitted separately. -/
theorem c2_counterexample :
    (drain 40 c2mid).toOption.map (fun m => m.currentState.stateName) = some "f"
  ∧ (send 40 c2quiet c2X).toOption.isSome = true
  ∧ (send 40 (send 40 c2quiet c2X).machine c2Y).toOption.map
      (fun m => m.currentState.stateName) = some "s2"
  ∧ (drain 40 c2mid).machine.currentState ≠
      (send 40 (send 40 c2quiet c2X).machine c2Y).machine.currentState := by
  refine ⟨by decide, by decide, by decide, by decide⟩

open FiniteStateMachine in
/-- C2 as amended: while a drain is active (started machine, handling flag
up) a recursive `send` only appends the event to the buffer — no nested
drain starts and nothing else changes; and the drain loop always processes
the head (oldest) buffered event first, so queued events are handled in FIFO
submission order, newly submitted events landing at the tail. -/
theorem c2_fifo_enqueue :
    (∀ fuel m e, m.lifecycle = .started → m.handlingEvent = true →
      send (fuel + 1) m e = .ok { m with bufferedEvents := m.bufferedEvents ++ [e] })
  ∧ (∀ fuel m e rest, m.bufferedEvents = e :: rest →
      drain (fuel + 1) m =
        Res.andThen (handleEvent fuel { m with bufferedEvents := rest } e)
          fun m1 => drain fuel m1) := by
  constructor
  · intro fuel m e hlc hh
    simp [send, interp, hlc, hh]
  · intro fuel m e rest hbuf
    simp only [drain, handleEvent, interp, hbuf]

open FiniteStateMachine in
/-- Witness for C2's amended theorem at the concrete mid-drain machine:
a recursive send of X only appends, and the drain step processes the head
of the buffer first. -/
theorem c2_witness :
    (c2mid.lifecycle = .started ∧ c2mid.handlingEvent = true ∧
      send 6 c2mid c2X = .ok { c2mid with bufferedEvents := c2mid.bufferedEvents ++ [c2X] })
  ∧ (c2mid.bufferedEvents = c2X :: [c2Y] ∧
      drain 6 c2mid =
        Res.andThen (handleEvent 5 { c2mid with bufferedEvents := [c2Y] } c2X)
          fun m1 => drain 5 m1) := by
  refine ⟨⟨rfl, rfl, c2_fifo_enqueue.1 5 c2mid c2X rfl rfl⟩,
          ⟨rfl, c2_fifo_enqueue.2 5 c2mid c2X [c2Y] rfl⟩⟩

open FiniteStateMachine in
/-- C3: entering the final state f marks the lifecycle finished and makes a
later send a no-op returning the unchanged machine, but the done
notification never fires: `transitionTo` never calls `_onDidFinish.fire`,
so the finish count is 0 where the claim requires exactly one firing. -/
theorem c3_done_never_fires :
    (send 20 c3m0 c3e).toOption.isSome = true
  ∧ c3m1.currentState.stateName = "f"
  ∧ c3m1.lifecycle = .finished
  ∧ c3m1.finishLog = 0
  ∧ send 5 c3m1 { eventName := "E2" } = .ok c3m1 := by
  refine ⟨by decide, by decide, by decide, by decide, rfl⟩

open FiniteStateMachine in
/-- C4 counterexample: sending to the never-started machine `c4m0` does not
fail with any error — `FiniteStateMachine.send` returns silently, leaving
the machine (state and buffer included) unchanged. -/
theorem c4_counterexample :
    c4m0.lifecycle = .initial ∧ send 5 c4m0 c4e = .ok c4m0 := by
  exact ⟨rfl, rfl⟩

open FiniteStateMachine in
/-- C5 counterexample: in `FiniteStateMachine` a `send` made while a guard
condition is evaluating does not fail — the event F submitted by the guard
of the E handler is silently buffered, the dispatch completes, and F is then
processed in FIFO order, driving the machine from a through b to c; no error
of any kind is raised. -/
theorem c5_counterexample :
    (send 30 c5m0 c5e).toOption.map (fun m => m.currentState.stateName) = some "c"
  ∧ (send 30 c5m0 c5e).machine.receiveLog = [c5e, { eventName := "F" }] := by
  exact ⟨by decide, by decide⟩

open FiniteStateMachine in
/-- C10 counterexample: the initial state f1 of `c10m0` has kind Final, yet
after `start()` the lifecycle flag is 'finished', not 'started': the entry
handlers run by `start` committed a transition into the final state f2 and
`transitionTo` marked the machine finished during `start`. -/
theorem c10_counterexample :
    (lookupDef c10def "f1").map (fun d => d.kind) = some .Final
  ∧ (start 20 c10m0).toOption.map (fun m => m.lifecycle) = some .finished
  ∧ (start 20 c10m0).machine.currentState.stateName = "f2" := by
  refine ⟨by decide, by decide, by decide⟩

/-- C4 as amended: sending to a machine that has not been started fails with
the lifecycle error in `StateMachine` — thrown before the event is queued,
so the state and the pending queue are unchanged — while in
`FiniteStateMachine` it is a silent no-op that also leaves the instance
unchanged. -/
theorem c4_send_before_start :
    (∀ fuel m e, m.internalState = none →
      StateMachine.send (fuel + 1) m e = .error (.lifecycle, m))
  ∧ (∀ fuel m e, m.lifecycle = .initial →
      FiniteStateMachine.send (fuel + 1) m e = .ok m) := by
  constructor
  · intro fuel m e h
    simp [StateMachine.send, StateMachine.sminterp, h]
  · intro fuel m e h
    simp [FiniteStateMachine.send, FiniteStateMachine.interp, h]

/-- Witness for the amended C4 at concrete machines: the unstarted
`StateMachine` `c4sm` throws the lifecycle error with nothing changed, and
the unstarted `FiniteStateMachine` `c4m0` returns itself silently. -/
theorem c4_witness :
    (StateMachine.c4sm.internalState = none ∧
      StateMachine.send 5 StateMachine.c4sm "E" = .error (.lifecycle, StateMachine.c4sm))
  ∧ (FiniteStateMachine.c4m0.lifecycle = .initial ∧
      FiniteStateMachine.send 5 FiniteStateMachine.c4m0 FiniteStateMachine.c4e =
        .ok FiniteStateMachine.c4m0) := by
  exact ⟨⟨rfl, c4_send_before_start.1 4 StateMachine.c4sm "E" rfl⟩,
         ⟨rfl, c4_send_before_start.2 4 FiniteStateMachine.c4m0 FiniteStateMachine.c4e rfl⟩⟩

open FiniteStateMachine in
/-- C10 as amended: `start` itself only ever sets the lifecycle to
'started' — 'finished' is set exclusively by `transitionTo`, which can run
during `start` only through an entry handler of the initial state.  When
the initial state has no entry handlers, `start` leaves the lifecycle at
'started' whatever the state's kind, and a subsequent send on a started,
idle machine is accepted and drained rather than ignored. -/
theorem c10_start_lifecycle :
    (∀ fuel m d, m.lifecycle = .initial →
      lookupDef m.definition m.currentState.stateName = some d →
      d.onEnter = [] →
      start (fuel + 2) m = .ok { m with lifecycle := .started })
  ∧ (∀ fuel m e, m.lifecycle = .started → m.handlingEvent = false →
      send (fuel + 1) m e =
        Res.andThen
          (interp fuel
            { m with bufferedEvents := m.bufferedEvents ++ [e], handlingEvent := true }
            Call.drain)
          fun m2 => .ok { m2 with handlingEvent := false }) := by
  constructor
  · intro fuel m d hlc hlook hoe
    simp [start, interp, hlc, hlook, hoe]
  · intro fuel m e hlc hh
    simp [send, interp, hlc, hh]

open FiniteStateMachine in
/-- Witness for the amended C10: starting `c10w0`, whose initial state g is
final with no entry handlers, leaves the lifecycle at 'started', and a send
on the started machine proceeds into the drain. -/
theorem c10_witness :
    (c10w0.lifecycle = .initial ∧
      lookupDef c10w0.definition c10w0.currentState.stateName = some { kind := .Final } ∧
      start 5 c10w0 = .ok { c10w0 with lifecycle := .started })
  ∧ send 5 { c10w0 with lifecycle := .started } c4e =
      Res.andThen
        (interp 4
          { { c10w0 with lifecycle := .started } with
            bufferedEvents := { c10w0 with lifecycle := .started }.bufferedEvents ++ [c4e],
            handlingEvent := true }
          Call.drain)
        (fun m2 => .ok { m2 with handlingEvent := false }) := by
  exact ⟨⟨rfl, rfl, c10_start_lifecycle.1 3 c10w0 { kind := .Final } rfl rfl rfl⟩,
         c10_start_lifecycle.2 4 { c10w0 with lifecycle := .started } c4e rfl rfl⟩

/-- The constructor's validation loop stops at the first state of kind Final
in declaration order: it reports `finalHasTransitions` exactly when that
first final state declares an `.on` table, and never inspects later
states. -/
theorem checkFinals_eq (nodes : List (String × StateMachine.StateNode)) :
    StateMachine.checkFinals nodes =
      match StateMachine.firstFinal nodes with
      | none => .ok false
      | some node =>
        if node.«on».isSome then .error .finalHasTransitions else .ok true := by
  induction nodes with
  | nil => rfl
  | cons p rest ih =>
    obtain ⟨s, node⟩ := p
    simp only [StateMachine.checkFinals, StateMachine.firstFinal]
    by_cases h : node.final <;> simp [h, ih]

/-- C6 as amended: construction fails iff no declared state is final or the
first final state in declaration order declares `.on` transitions; final
states after the first are never checked, so the instance is created even
when a later final state declares event transitions. -/
theorem c6_construction_validation (init : String)
    (ts : List (String × StateMachine.StateNode)) :
    StateMachine.construct init ts =
      match StateMachine.firstFinal ts with
      | none => .error .noFinal
      | some node =>
        if node.«on».isSome then .error .finalHasTransitions
        else .ok (StateMachine.mkSM init ts) := by
  unfold StateMachine.construct
  rw [checkFinals_eq]
  cases StateMachine.firstFinal ts with
  | none => rfl
  | some node => by_cases hon : node.«on».isSome <;> simp [hon]

/-- C6 counterexample: in `c6ts` the final state B declares event
transitions, yet construction succeeds — the validation loop broke at the
clean final state A and never examined B. -/
theorem c6_counterexample :
    (∃ p ∈ StateMachine.c6ts, p.2.final = true ∧ p.2.«on».isSome = true)
  ∧ (StateMachine.construct "A" StateMachine.c6ts).toOption.isSome = true := by
  exact ⟨by decide, by decide⟩

/-- C5 as amended (the `StateMachine` side): when the eligible-transition
scan reaches a transition whose guard closure calls `send` while
evaluating — all guards before it having evaluated to a clean false — the
inner `send` throws the reentrancy error, which propagates with the machine
exactly as it was when the scan began: no transition of the in-flight scan
is committed. -/
theorem c5_reentrancy_guard :
    ∀ fuel (m : StateMachine.SMachine) pre t rest ev,
      pre.length < fuel →
      (∀ t' ∈ pre, ∃ c, StateMachine.Transition.condition t' = some c ∧
        c.sendsDuring = [] ∧ c.result = false) →
      (∃ c, StateMachine.Transition.condition t = some c ∧ c.sendsDuring ≠ []) →
      m.internalState ≠ none →
      StateMachine.scanTransitions fuel m (pre ++ t :: rest) ev = .error (.reentrancy, m) := by
  intro fuel m pre t rest ev
  induction pre generalizing fuel with
  | nil =>
    intro hf hpre ht hint
    obtain ⟨c, hc, hcs⟩ := ht
    cases fuel with
    | zero => omega
    | succ f =>
      simp only [StateMachine.scanTransitions, StateMachine.sminterp, List.nil_append,
        StateMachine.evalCondition, hc]
      rw [List.isEmpty_eq_false_iff_exists_mem.mpr]
      · simp [hint]
      · cases hs : c.sendsDuring with
        | nil => exact absurd hs hcs
        | cons a as => exact ⟨a, by simp [hs]⟩
  | cons p pre' ih =>
    intro hf hpre ht hint
    cases fuel with
    | zero => simp at hf
    | succ f =>
      obtain ⟨c, hc, hcs, hcr⟩ := hpre p (List.mem_cons_self p pre')
      simp only [StateMachine.scanTransitions, StateMachine.sminterp, List.cons_append,
        StateMachine.evalCondition, hc, hcs, List.isEmpty_nil, if_true, hcr]
      exact ih f (by simp at hf; omega)
        (fun t' ht' => hpre t' (List.mem_cons_of_mem p ht')) ht hint

/-- Witness for the amended C5: on the concrete machine `c5sm`, whose Stop
guard submits an event while evaluating, the scan — and the whole
`send("Stop")` call — fails with the reentrancy error carrying the machine
unchanged. -/
theorem c5_witness :
    (([] : List StateMachine.Transition).length < 3 ∧
      (∃ c, StateMachine.Transition.condition StateMachine.c5smT = some c ∧
        c.sendsDuring ≠ []) ∧
      StateMachine.c5sm.internalState ≠ none ∧
      StateMachine.scanTransitions 3 StateMachine.c5sm
        ([] ++ StateMachine.c5smT :: []) "Stop" = .error (.reentrancy, StateMachine.c5sm))
  ∧ StateMachine.send 9 StateMachine.c5sm "Stop" =
      .error (.reentrancy, StateMachine.c5sm) := by
  refine ⟨⟨by decide, ⟨_, rfl, by decide⟩, by decide, ?_⟩, rfl⟩
  exact c5_reentrancy_guard 3 StateMachine.c5sm [] StateMachine.c5smT [] "Stop"
    (by decide) (by simp) ⟨_, rfl, by decide⟩ (by decide)


open FiniteStateMachine in
/-- `CommitRel` is reflexive. -/
theorem commitRel_refl (m : Machine) : CommitRel m m :=
  ⟨[], by simp, fun _ => ⟨rfl, rfl⟩⟩

open FiniteStateMachine in
/-- `CommitRel` is transitive. -/
theorem commitRel_trans {a b c : Machine} (h1 : CommitRel a b) (h2 : CommitRel b c) :
    CommitRel a c := by
  obtain ⟨e1, hl1, hp1⟩ := h1
  obtain ⟨e2, hl2, hp2⟩ := h2
  refine ⟨e1 ++ e2, by rw [hl2, hl1, List.append_assoc], ?_⟩
  intro h
  obtain ⟨h1n, h2n⟩ := List.append_eq_nil.mp h
  obtain ⟨hs1, hf1⟩ := hp1 h1n
  obtain ⟨hs2, hf2⟩ := hp2 h2n
  exact ⟨hs2.trans hs1, hf2.trans hf1⟩

open FiniteStateMachine in
/-- A step that keeps the transition log, the current state and the
lifecycle is `CommitRel`-neutral. -/
theorem commitRel_of_eq {a b : Machine} (hl : b.transitionLog = a.transitionLog)
    (hs : b.currentState = a.currentState) (hf : b.lifecycle = a.lifecycle) :
    CommitRel a b :=
  ⟨[], by simp [hl], fun _ => ⟨hs, hf⟩⟩

open FiniteStateMachine in
/-- Error-propagating matches preserve `CommitRel`. -/
theorem commitRel_bind {m : Machine} (r : Res) (k : Machine → Res)
    (h1 : CommitRel m (Res.machine r))
    (h2 : ∀ m2, r = .ok m2 → CommitRel m2 (Res.machine (k m2))) :
    CommitRel m (Res.machine (Res.andThen r k)) := by
  cases r with
  | error em => exact h1
  | ok m2 => exact commitRel_trans h1 (h2 m2 rfl)

open FiniteStateMachine in
/-- Master lemma for C8: apart from `start`, every engine operation only
appends to the transition log, and whenever it did not append (no
`_onDidTransition` notification fired, hence no state swap was committed)
the current state and the lifecycle come out exactly as they went in —
whether the operation returned or threw. -/
theorem interp_commit :
    ∀ fuel (m : Machine) c, c ≠ Call.start → CommitRel m (Res.machine (interp fuel m c)) := by
  intro fuel
  induction fuel with
  | zero => intro m c _; exact commitRel_refl m
  | succ fuel ih =>
    intro m c hc
    cases c with
    | start => exact absurd rfl hc
    | runHandlers hs e =>
      cases hs with
      | nil => exact commitRel_refl m
      | cons h rest =>
        simp only [interp]
        split
        · exact commitRel_refl m
        · apply commitRel_bind
          · split
            · exact commitRel_refl m
            · exact ih m _ (fun hx => Call.noConfusion hx)
          · intro m1 _
            split
            · cases h with
              | executeH cnd ex =>
                simp only []
                split
                · exact commitRel_refl m1
                · apply commitRel_bind
                  · split
                    · exact commitRel_refl m1
                    · exact ih m1 _ (fun hx => Call.noConfusion hx)
                  · intro m2 _
                    exact ih m2 _ (fun hx => Call.noConfusion hx)
              | transitionH cnd tr =>
                simp only []
                split
                · exact commitRel_refl m1
                · split
                  · exact commitRel_refl m1
                  · exact ih m1 _ (fun hx => Call.noConfusion hx)
            · exact ih m1 _ (fun hx => Call.noConfusion hx)
    | transitionTo e nextState =>
      simp only [interp]
      split
      · exact commitRel_refl m
      · rename_i prevDef hd
        cases hx : interp fuel m (.runHandlers prevDef.onExit e) with
        | error em =>
          simp only [Res.andThen]
          have h1 := ih m (.runHandlers prevDef.onExit e) (fun hx' => Call.noConfusion hx')
          rw [hx] at h1
          exact h1
        | ok m1 =>
          simp only [Res.andThen]
          have h1 := ih m (.runHandlers prevDef.onExit e) (fun hx' => Call.noConfusion hx')
          rw [hx] at h1
          obtain ⟨e1, hl1, _⟩ := h1
          simp only [Res.machine] at hl1
          split
          · refine ⟨e1 ++ [(e, nextState, m.currentState)], ?_, fun hemp => absurd hemp (by simp)⟩
            simp only [Res.machine]
            simp [hl1]
          · rename_i nextDef hnd
            cases he : interp fuel
                { m1 with
                  currentState := nextState
                  transitionLog := m1.transitionLog ++ [(e, nextState, m.currentState)] }
                (.runHandlers nextDef.onEnter e) with
            | error em =>
              obtain ⟨ε, me⟩ := em
              have h2 := ih
                { m1 with
                  currentState := nextState
                  transitionLog := m1.transitionLog ++ [(e, nextState, m.currentState)] }
                (.runHandlers nextDef.onEnter e) (fun hx' => Call.noConfusion hx')
              rw [he] at h2
              obtain ⟨e2, hl2, _⟩ := h2
              simp only [Res.andThen, Res.machine] at hl2 ⊢
              refine ⟨e1 ++ [(e, nextState, m.currentState)] ++ e2, ?_,
                fun hemp => absurd hemp (by simp)⟩
              rw [hl2]
              simp [hl1]
            | ok m3 =>
              have h2 := ih
                { m1 with
                  currentState := nextState
                  transitionLog := m1.transitionLog ++ [(e, nextState, m.currentState)] }
                (.runHandlers nextDef.onEnter e) (fun hx' => Call.noConfusion hx')
              rw [he] at h2
              obtain ⟨e2, hl2, _⟩ := h2
              simp only [Res.machine] at hl2
              simp only [Res.andThen, Res.machine]
              refine ⟨e1 ++ [(e, nextState, m.currentState)] ++ e2, ?_,
                fun hemp => absurd hemp (by simp)⟩
              split <;> simp [hl2, hl1]
    | handleEvent e =>
      simp only [interp]
      split
      · exact commitRel_refl m
      · exact commitRel_trans (commitRel_of_eq rfl rfl rfl)
          (ih { m with receiveLog := m.receiveLog ++ [e] } _ (fun hx => Call.noConfusion hx))
    | drain =>
      simp only [interp]
      split
      · exact commitRel_refl m
      · rename_i e rest hb
        apply commitRel_bind
        · exact commitRel_trans (commitRel_of_eq rfl rfl rfl)
            (ih { m with bufferedEvents := rest } _ (fun hx => Call.noConfusion hx))
        · intro m1 _
          exact ih m1 _ (fun hx => Call.noConfusion hx)
    | send e =>
      simp only [interp]
      split
      · exact commitRel_refl m
      · split
        · exact commitRel_of_eq rfl rfl rfl
        · apply commitRel_bind
          · exact commitRel_trans (commitRel_of_eq rfl rfl rfl)
              (ih _ _ (fun hx => Call.noConfusion hx))
          · intro m2 _
            exact commitRel_of_eq rfl rfl rfl
    | sendMany es =>
      cases es with
      | nil => exact commitRel_refl m
      | cons e rest =>
        simp only [interp]
        apply commitRel_bind
        · exact ih m _ (fun hx => Call.noConfusion hx)
        · intro m1 _
          exact ih m1 _ (fun hx => Call.noConfusion hx)

open FiniteStateMachine in
/-- C8: a handler-thrown error is not caught by the engine — it propagates
out of `send` carrying the machine as it stood at throw time — and when no
transition was committed during the failed dispatch (the `_onDidTransition`
log did not grow), the machine's current state and lifecycle are exactly as
they were before the dispatch began: the engine performs no partial
transition commit.  (When entry handlers had already run, the log has grown
by the committed swap, which is the claim's acknowledged exception: entry
work is not rolled back.) -/
theorem c8_no_partial_commit :
    ∀ fuel (m : Machine) e ε m', send fuel m e = .error (ε, m') →
      m'.transitionLog = m.transitionLog →
      m'.currentState = m.currentState ∧ m'.lifecycle = m.lifecycle := by
  intro fuel m e ε m' hs hlog
  have h := interp_commit fuel m (.send e) (fun hx => Call.noConfusion hx)
  rw [show interp fuel m (Call.send e) = send fuel m e from rfl, hs] at h
  obtain ⟨ext, hl, hp⟩ := h
  simp only [Res.machine] at hl hp
  have hext : ext = [] := by
    have h2 : m.transitionLog ++ ext = m.transitionLog ++ [] := by
      rw [List.append_nil, ← hl, hlog]
    exact List.append_cancel_left h2
  exact hp hext

open FiniteStateMachine in
/-- Witness for C8: on `c8m0` the throwing transition handler makes
`send` fail with the user error 7; the transition log did not grow, and the
theorem yields the unchanged current state and lifecycle. -/
theorem c8_witness :
    send 9 c8m0 c8e = .error (.handlerError 7, c8m1)
  ∧ c8m1.transitionLog = c8m0.transitionLog
  ∧ (c8m1.currentState = c8m0.currentState ∧ c8m1.lifecycle = c8m0.lifecycle) := by
  refine ⟨rfl, rfl, c8_no_partial_commit 9 c8m0 c8e (.handlerError 7) c8m1 rfl rfl⟩


open FiniteStateMachine in
/-- Error-propagating sequencing preserves the raised handling flag. -/
theorem handling_bind (r : Res) (k : Machine → Res)
    (h1 : (Res.machine r).handlingEvent = true)
    (h2 : ∀ m2, r = .ok m2 → m2.handlingEvent = true →
      (Res.machine (k m2)).handlingEvent = true) :
    (Res.machine (Res.andThen r k)).handlingEvent = true := by
  cases r with
  | error em => exact h1
  | ok m2 => exact h2 m2 rfl h1

open FiniteStateMachine in
/-- The handling flag, once up, stays up through every engine operation,
thrown or not — the only reset sits in the tail of a successful `send`
whose call frame raised the flag itself. -/
theorem interp_handling :
    ∀ fuel (m : Machine) c, m.handlingEvent = true →
      (Res.machine (interp fuel m c)).handlingEvent = true := by
  intro fuel
  induction fuel with
  | zero => intro m c hm; exact hm
  | succ fuel ih =>
    intro m c hm
    cases c with
    | start =>
      simp only [interp]
      split
      · exact hm
      · split
        · exact hm
        · exact ih _ _ hm
    | runHandlers hs e =>
      cases hs with
      | nil => exact hm
      | cons h rest =>
        simp only [interp]
        split
        · exact hm
        · apply handling_bind
          · split
            · exact hm
            · exact ih m _ hm
          · intro m1 _ hm1
            split
            · cases h with
              | executeH cnd ex =>
                simp only []
                split
                · exact hm1
                · apply handling_bind
                  · split
                    · exact hm1
                    · exact ih m1 _ hm1
                  · intro m2 _ hm2
                    exact ih m2 _ hm2
              | transitionH cnd tr =>
                simp only []
                split
                · exact hm1
                · split
                  · exact hm1
                  · exact ih m1 _ hm1
            · exact ih m1 _ hm1
    | transitionTo e nextState =>
      simp only [interp]
      split
      · exact hm
      · apply handling_bind
        · exact ih m _ hm
        · intro m1 _ hm1
          split
          · exact hm1
          · apply handling_bind
            · exact ih _ _ hm1
            · intro m3 _ hm3
              split <;> exact hm3
    | handleEvent e =>
      simp only [interp]
      split
      · exact hm
      · exact ih _ _ hm
    | drain =>
      simp only [interp]
      split
      · exact hm
      · apply handling_bind
        · exact ih _ _ hm
        · intro m1 _ hm1
          exact ih m1 _ hm1
    | send e =>
      simp only [interp]
      split
      · exact hm
      · exact hm
    | sendMany es =>
      cases es with
      | nil => exact hm
      | cons e rest =>
        simp only [interp]
        apply handling_bind
        · exact ih m _ hm
        · intro m1 _ hm1
          exact ih m1 _ hm1

open FiniteStateMachine in
/-- C9: when a handler throws out of `send`, the handling flag is left up
(there is no `finally` to reset it); from then on, as long as the lifecycle
reads 'started', every `send` on the instance only appends its event to the
buffer and returns — no event is ever drained again. -/
theorem c9_stuck_draining_flag :
    ∀ fuel (m : Machine) e ε m', send (fuel + 1) m e = .error (ε, m') →
      m'.handlingEvent = true
    ∧ (∀ fuel2 e2, m'.lifecycle = .started →
        send (fuel2 + 1) m' e2 = .ok { m' with bufferedEvents := m'.bufferedEvents ++ [e2] }) := by
  intro fuel m e ε m' hs
  have hflag : m'.handlingEvent = true := by
    simp only [send, interp] at hs
    split at hs
    · exact Except.noConfusion hs
    · split at hs
      · exact Except.noConfusion hs
      · cases hd : interp fuel
            { m with bufferedEvents := m.bufferedEvents ++ [e], handlingEvent := true }
            .drain with
        | ok m2 =>
          rw [hd] at hs
          simp only [Res.andThen] at hs
          exact Except.noConfusion hs
        | error em =>
          have hmf := interp_handling fuel
            { m with bufferedEvents := m.bufferedEvents ++ [e], handlingEvent := true }
            .drain rfl
          rw [hd] at hmf
          rw [hd] at hs
          simp only [Res.andThen] at hs
          injection hs with hji
          rw [hji] at hmf
          exact hmf
  refine ⟨hflag, fun fuel2 e2 hlc => ?_⟩
  simp [send, interp, hlc, hflag]

open FiniteStateMachine in
/-- Witness for C9: the throwing execute handler of `c9m0` makes `send`
fail with user error 3; the machine left behind has the handling flag up and
a later send on it merely appends to the buffer. -/
theorem c9_witness :
    send 9 c9m0 c9e = .error (.handlerError 3, c9m1)
  ∧ c9m1.handlingEvent = true
  ∧ c9m1.lifecycle = .started
  ∧ send 6 c9m1 { eventName := "E2" } =
      .ok { c9m1 with bufferedEvents := c9m1.bufferedEvents ++ [{ eventName := "E2" }] } := by
  refine ⟨rfl, (c9_stuck_draining_flag 8 c9m0 c9e (.handlerError 3) c9m1 rfl).1, rfl,
    (c9_stuck_draining_flag 8 c9m0 c9e (.handlerError 3) c9m1 rfl).2 5 { eventName := "E2" } rfl⟩

/-- `runCallbacks` appends exactly the observable action of each callback to
the log, in order, and leaves the cancellation registry, the token counter,
the transition table, the current state and the enqueue flag untouched. -/
theorem runCallbacks_spec (cbs : List StateMachine.Callback) (m : StateMachine.SMachine) :
    (StateMachine.runCallbacks m cbs).log = m.log ++ cbs.map StateMachine.cbAction
  ∧ (StateMachine.runCallbacks m cbs).pendingCancellations = m.pendingCancellations
  ∧ (StateMachine.runCallbacks m cbs).tokenCounter = m.tokenCounter
  ∧ (StateMachine.runCallbacks m cbs).transitions = m.transitions
  ∧ (StateMachine.runCallbacks m cbs).internalState = m.internalState
  ∧ (StateMachine.runCallbacks m cbs).enqueueEvents = m.enqueueEvents := by
  induction cbs generalizing m with
  | nil => simp [StateMachine.runCallbacks]
  | cons cb rest ih =>
    cases cb <;> simp [StateMachine.runCallbacks, StateMachine.cbAction, ih]

/-- `SMExtends` is reflexive. -/
theorem smExtends_refl (m : StateMachine.SMachine) : StateMachine.SMExtends m m :=
  ⟨⟨[], by simp⟩, le_refl _, fun t ht => Or.inl ht⟩

/-- `SMExtends` is transitive. -/
theorem smExtends_trans {a b c : StateMachine.SMachine}
    (h1 : StateMachine.SMExtends a b) (h2 : StateMachine.SMExtends b c) :
    StateMachine.SMExtends a c := by
  obtain ⟨⟨e1, hl1⟩, hc1, hp1⟩ := h1
  obtain ⟨⟨e2, hl2⟩, hc2, hp2⟩ := h2
  refine ⟨⟨e1 ++ e2, by rw [hl2, hl1, List.append_assoc]⟩, hc1.trans hc2, fun t ht => ?_⟩
  rcases hp2 t ht with hmem | hge
  · exact hp1 t hmem
  · exact Or.inr (hc1.trans hge)

/-- Error-propagating sequencing preserves `SMExtends`. -/
theorem smExtends_bind {m : StateMachine.SMachine} (r : StateMachine.SMRes)
    (k : StateMachine.SMachine → StateMachine.SMRes)
    (h1 : StateMachine.SMExtends m (StateMachine.SMRes.machine r))
    (h2 : ∀ m2, r = .ok m2 →
      StateMachine.SMExtends m2 (StateMachine.SMRes.machine (k m2))) :
    StateMachine.SMExtends m (StateMachine.SMRes.machine (StateMachine.SMRes.andThen r k)) := by
  cases r with
  | error em => exact h1
  | ok m2 => exact smExtends_trans h1 (h2 m2 rfl)

/-- A guard evaluation that throws leaves the machine untouched: the
`finally` resets the `executingCondition` flag before the error escapes. -/
theorem evalCondition_error (m : StateMachine.SMachine) (c : Option StateMachine.SMCondition)
    (em : StateMachine.SMErr × StateMachine.SMachine)
    (h : StateMachine.evalCondition m c = .error em) : em.2 = m := by
  cases c with
  | none => exact Except.noConfusion h
  | some c =>
    simp only [StateMachine.evalCondition] at h
    split at h
    · exact Except.noConfusion h
    · injection h with h2
      rw [← h2]

/-- Changing only the event queue is `SMExtends`-neutral. -/
theorem smExtends_queue (m : StateMachine.SMachine) (q : List String) :
    StateMachine.SMExtends m { m with eventQueue := q } :=
  ⟨⟨[], by simp⟩, by simp, fun t ht => Or.inl (by simpa using ht)⟩

/-- The common tail of `enterMachineState`: running the deferred callbacks
and then flushing the queue extends any `SMExtends`-predecessor of the
pre-callback machine. -/
theorem smExtends_rc_flush (fuel : Nat) (m base : StateMachine.SMachine)
    (cbs : List StateMachine.Callback)
    (h : StateMachine.SMExtends m base)
    (ihf : ∀ m2, StateMachine.SMExtends m2
      (StateMachine.SMRes.machine (StateMachine.sminterp fuel m2 .flushEventQueue))) :
    StateMachine.SMExtends m
      (StateMachine.SMRes.machine (StateMachine.sminterp fuel
        { StateMachine.runCallbacks { base with enqueueEvents := true } cbs with
          enqueueEvents := false } .flushEventQueue)) := by
  refine smExtends_trans (smExtends_trans h ?_) (ihf _)
  obtain ⟨hl, hpend, hcnt, -, -, -⟩ :=
    runCallbacks_spec cbs { base with enqueueEvents := true }
  exact ⟨⟨cbs.map StateMachine.cbAction, by simp [hl]⟩, by simp [hcnt],
    fun t ht => Or.inl (by simp only [hpend] at ht; simpa using ht)⟩

/-- Master lemma for C7: every `StateMachine` operation only appends to the
action log, never lowers the token counter, and only ever adds pending
cancellation-token sources numbered at or above the counter it started
with. -/
theorem sminterp_extends :
    ∀ fuel (m : StateMachine.SMachine) c,
      StateMachine.SMExtends m (StateMachine.SMRes.machine (StateMachine.sminterp fuel m c)) := by
  intro fuel
  induction fuel with
  | zero => intro m c; exact smExtends_refl m
  | succ fuel ih =>
    intro m c
    cases c with
    | enterMachineState state event =>
      simp only [StateMachine.sminterp]
      by_cases hch : m.internalState = some state
      · simp only [if_neg (show ¬m.internalState ≠ some state from fun hcon => hcon hch)]
        split
        · exact smExtends_refl m
        · split
          · exact smExtends_rc_flush fuel m m _ (smExtends_refl m)
              (fun m2 => ih m2 .flushEventQueue)
          · refine smExtends_rc_flush fuel m
              { m with
                pendingCancellations := m.pendingCancellations ++ [m.tokenCounter]
                tokenCounter := m.tokenCounter + 1 } _
              ⟨⟨[], by simp⟩, by simp, fun t ht => ?_⟩
              (fun m2 => ih m2 .flushEventQueue)
            simp only [List.mem_append, List.mem_singleton] at ht
            rcases ht with hmem | hfresh
            · exact Or.inl (by simpa using hmem)
            · exact Or.inr (by simp [hfresh])
      · have hne : m.internalState ≠ some state := hch
        simp only [if_pos hne]
        split
        · refine ⟨⟨m.pendingCancellations.map StateMachine.SMAction.cancelToken
              ++ [StateMachine.SMAction.stateSwap state], ?_⟩, ?_, fun t ht => ?_⟩
          · simp [StateMachine.SMRes.machine]
          · simp [StateMachine.SMRes.machine]
          · exact absurd ht (by simp [StateMachine.SMRes.machine])
        · split
          · exact smExtends_rc_flush fuel m
              { m with
                pendingCancellations := []
                internalState := some state
                log := m.log ++ m.pendingCancellations.map StateMachine.SMAction.cancelToken
                  ++ [StateMachine.SMAction.stateSwap state] } _
              ⟨⟨m.pendingCancellations.map StateMachine.SMAction.cancelToken
                  ++ [StateMachine.SMAction.stateSwap state], by simp⟩, by simp,
                fun t ht => absurd ht (by simp)⟩
              (fun m2 => ih m2 .flushEventQueue)
          · refine smExtends_rc_flush fuel m
              { m with
                pendingCancellations := [m.tokenCounter]
                tokenCounter := m.tokenCounter + 1
                internalState := some state
                log := m.log ++ m.pendingCancellations.map StateMachine.SMAction.cancelToken
                  ++ [StateMachine.SMAction.stateSwap state] } _
              ⟨⟨m.pendingCancellations.map StateMachine.SMAction.cancelToken
                  ++ [StateMachine.SMAction.stateSwap state], by simp⟩, by simp,
                fun t ht => ?_⟩
              (fun m2 => ih m2 .flushEventQueue)
            simp only [List.mem_singleton] at ht
            exact Or.inr (by simp [ht])
    | flushEventQueue =>
      simp only [StateMachine.sminterp]
      split
      · exact smExtends_refl m
      · split
        · exact smExtends_refl m
        · split
          · exact smExtends_queue m _
          · split
            · exact smExtends_trans (smExtends_queue m _) (ih _ .flushEventQueue)
            · split
              · exact smExtends_trans (smExtends_queue m _) (ih _ .flushEventQueue)
              · split
                · exact smExtends_trans (smExtends_queue m _) (ih _ .flushEventQueue)
                · apply smExtends_bind
                  · exact smExtends_trans (smExtends_queue m _) (ih _ _)
                  · intro m2 _
                    exact ih m2 .flushEventQueue
    | scan ts event =>
      cases ts with
      | nil => exact smExtends_refl m
      | cons t rest =>
        simp only [StateMachine.sminterp]
        split
        · rename_i em heq
          rw [show StateMachine.SMRes.machine (.error em) = em.2 from rfl,
            evalCondition_error m t.condition em heq]
          exact smExtends_refl m
        · exact ih m _
        · exact ih m _
    | send event =>
      simp only [StateMachine.sminterp]
      split
      · exact smExtends_refl m
      · split
        · exact smExtends_refl m
        · split
          · exact smExtends_trans (smExtends_queue m _) (ih _ .flushEventQueue)
          · exact smExtends_queue m _
    | start =>
      simp only [StateMachine.sminterp]
      split
      · exact smExtends_refl m
      · exact ih m _

/-- Tail lemma for C7: once the cancellations, the state swap and the
deferred callbacks are accounted for in a prefix, the trailing queue flush
only appends further actions and only registers fresh token sources. -/
theorem c7_tail (fuel : Nat) (m base : StateMachine.SMachine)
    (cbs : List StateMachine.Callback) (pref : List StateMachine.SMAction)
    (hlog : base.log ++ cbs.map StateMachine.cbAction = m.log ++ pref)
    (hcnt : m.tokenCounter ≤ base.tokenCounter)
    (hpend : ∀ t ∈ base.pendingCancellations, m.tokenCounter ≤ t) :
    (∃ rest, (StateMachine.SMRes.machine (StateMachine.sminterp fuel
        { StateMachine.runCallbacks { base with enqueueEvents := true } cbs with
          enqueueEvents := false } .flushEventQueue)).log = m.log ++ pref ++ rest)
  ∧ ∀ t0, t0 < m.tokenCounter →
      t0 ∉ (StateMachine.SMRes.machine (StateMachine.sminterp fuel
        { StateMachine.runCallbacks { base with enqueueEvents := true } cbs with
          enqueueEvents := false } .flushEventQueue)).pendingCancellations := by
  obtain ⟨hl, hpd, hct, -, -, -⟩ := runCallbacks_spec cbs { base with enqueueEvents := true }
  obtain ⟨⟨ext, hlog2⟩, hcnt2, hpend2⟩ := sminterp_extends fuel
    { StateMachine.runCallbacks { base with enqueueEvents := true } cbs with
      enqueueEvents := false } .flushEventQueue
  have hm4log : ({ StateMachine.runCallbacks { base with enqueueEvents := true } cbs with
      enqueueEvents := false } : StateMachine.SMachine).log = m.log ++ pref := by
    show (StateMachine.runCallbacks { base with enqueueEvents := true } cbs).log = m.log ++ pref
    rw [hl]
    exact hlog
  have hm4cnt : m.tokenCounter ≤ ({ StateMachine.runCallbacks
      { base with enqueueEvents := true } cbs with
      enqueueEvents := false } : StateMachine.SMachine).tokenCounter := by
    show m.tokenCounter ≤ (StateMachine.runCallbacks { base with enqueueEvents := true } cbs).tokenCounter
    rw [hct]
    exact hcnt
  constructor
  · refine ⟨ext, ?_⟩
    rw [hlog2, hm4log, List.append_assoc]
  · intro t0 hb hcontra
    rcases hpend2 t0 hcontra with hmem | hge
    · have hmem2 : t0 ∈ base.pendingCancellations := by
        have : ({ StateMachine.runCallbacks { base with enqueueEvents := true } cbs with
            enqueueEvents := false } : StateMachine.SMachine).pendingCancellations
            = base.pendingCancellations := by
          show (StateMachine.runCallbacks
            { base with enqueueEvents := true } cbs).pendingCancellations = _
          rw [hpd]
        rwa [this] at hmem
      have := hpend t0 hmem2
      omega
    · have := le_trans hm4cnt hge
      omega

/-- C7: entering a state whose name differs from the current one cancels and
disposes every pending cancellation-token source, in FIFO registration
order, and clears the registry — all before the `internalState` assignment,
which itself precedes the state-change notification, the run of the new
state's `onEnter` callback (registered with a fresh token) and the done
notification; none of the previously pending tokens survives into the
machine that results. -/
theorem c7_cancellation_protocol :
    ∀ fuel (m : StateMachine.SMachine) s ev node,
      StateMachine.lookupNode m.transitions s = some node →
      m.internalState ≠ some s →
      (∀ t ∈ m.pendingCancellations, t < m.tokenCounter) →
      (∃ rest,
        (StateMachine.SMRes.machine (StateMachine.enterMachineState (fuel + 1) m s ev)).log =
          m.log ++ m.pendingCancellations.map StateMachine.SMAction.cancelToken
            ++ [StateMachine.SMAction.stateSwap s, StateMachine.SMAction.fireStateChange ev s]
            ++ (match node.onEnter with
                | some _ => [StateMachine.SMAction.runEnter m.tokenCounter]
                | none => [])
            ++ (if node.final then [StateMachine.SMAction.fireDone] else []) ++ rest)
    ∧ ∀ t ∈ m.pendingCancellations,
        t ∉ (StateMachine.SMRes.machine
          (StateMachine.enterMachineState (fuel + 1) m s ev)).pendingCancellations := by
  intro fuel m s ev node hlook hne hbound
  simp only [StateMachine.enterMachineState, StateMachine.sminterp, if_pos hne, hlook]
  cases hoe : node.onEnter with
  | none =>
    simp only [hoe]
    have h := c7_tail fuel m
      { m with
        pendingCancellations := []
        internalState := some s
        log := m.log ++ m.pendingCancellations.map StateMachine.SMAction.cancelToken
          ++ [StateMachine.SMAction.stateSwap s] }
      ([.fireChange ev s] ++ (if node.final then [.fireDone] else []))
      (m.pendingCancellations.map StateMachine.SMAction.cancelToken
        ++ [StateMachine.SMAction.stateSwap s, StateMachine.SMAction.fireStateChange ev s]
        ++ (if node.final then [StateMachine.SMAction.fireDone] else []))
      (by by_cases hfin : node.final <;> simp [hfin, StateMachine.cbAction])
      (by simp) (by simp)
    refine ⟨?_, fun t ht => h.2 t (hbound t ht)⟩
    obtain ⟨rest, hr⟩ := h.1
    exact ⟨rest, hr.trans (by simp [List.append_assoc])⟩
  | some sends =>
    simp only [hoe]
    have h := c7_tail fuel m
      { m with
        pendingCancellations := [m.tokenCounter]
        tokenCounter := m.tokenCounter + 1
        internalState := some s
        log := m.log ++ m.pendingCancellations.map StateMachine.SMAction.cancelToken
          ++ [StateMachine.SMAction.stateSwap s] }
      ([.fireChange ev s] ++ [.runEnter m.tokenCounter sends]
        ++ (if node.final then [.fireDone] else []))
      (m.pendingCancellations.map StateMachine.SMAction.cancelToken
        ++ [StateMachine.SMAction.stateSwap s, StateMachine.SMAction.fireStateChange ev s]
        ++ [StateMachine.SMAction.runEnter m.tokenCounter]
        ++ (if node.final then [StateMachine.SMAction.fireDone] else []))
      (by by_cases hfin : node.final <;> simp [hfin, StateMachine.cbAction])
      (by simp) (by simp)
    refine ⟨?_, fun t ht => h.2 t (hbound t ht)⟩
    obtain ⟨rest, hr⟩ := h.1
    exact ⟨rest, hr.trans (by simp [List.append_assoc])⟩

/-- Witness for C7 at the concrete machine `c7sm`: entering the final state
B with two pending token sources produces the cancellation actions, the
swap, the state-change fire, the entry run with the fresh token 2 and the
done fire, in that order, and neither old token 0 nor 1 survives. -/
theorem c7_witness :
    (StateMachine.lookupNode StateMachine.c7sm.transitions "B" = some StateMachine.c7node ∧
     StateMachine.c7sm.internalState ≠ some "B" ∧
     (∀ t ∈ StateMachine.c7sm.pendingCancellations, t < StateMachine.c7sm.tokenCounter))
  ∧ (∃ rest,
      (StateMachine.SMRes.machine
        (StateMachine.enterMachineState 5 StateMachine.c7sm "B" "go")).log =
        StateMachine.c7sm.log
          ++ StateMachine.c7sm.pendingCancellations.map StateMachine.SMAction.cancelToken
          ++ [StateMachine.SMAction.stateSwap "B", StateMachine.SMAction.fireStateChange "go" "B"]
          ++ (match StateMachine.c7node.onEnter with
              | some _ => [StateMachine.SMAction.runEnter StateMachine.c7sm.tokenCounter]
              | none => [])
          ++ (if StateMachine.c7node.final then [StateMachine.SMAction.fireDone] else []) ++ rest)
  ∧ ∀ t ∈ StateMachine.c7sm.pendingCancellations,
      t ∉ (StateMachine.SMRes.machine
        (StateMachine.enterMachineState 5 StateMachine.c7sm "B" "go")).pendingCancellations := by
  have h := c7_cancellation_protocol 4 StateMachine.c7sm "B" "go" StateMachine.c7node rfl
    (by decide) (by decide)
  exact ⟨⟨rfl, by decide, by decide⟩, h.1, h.2⟩
